import Mathlib

/-!
Shallow embedding of the snowdoge contract-analysis pipeline
(`src/analyzer.ts`, `src/types.ts`).

The pipeline fetches paginated contract records, filters them by a parsed
monetary threshold and a processed-identifier set, submits candidates to an
external classifier, and appends flagged results to a newline-delimited
durable log, rebuilding the identifier set from that log at startup.

External effects (HTTP fetch, the OpenAI call, file append success) are
modelled as explicit outcome oracles passed to the functions that perform
them; the log file is modelled at record granularity (`LogLine`), with a
line being either a well-formed record or a corrupt (non-parseable) line.
Monetary values are parsed to `Option ℚ` (`none` models `NaN`).
-/

namespace Snowdoge

/-- `BATCH_SIZE` constant from `ContractAnalyzer`. -/
def BATCH_SIZE : Nat := 100

/-- `MAX_RETRIES` constant from `ContractAnalyzer`. -/
def MAX_RETRIES : Nat := 3

/-- `RATE_LIMIT_DELAY` constant from `ContractAnalyzer` (milliseconds). -/
def RATE_LIMIT_DELAY : Nat := 1000

/-- `MIN_CONTRACT_VALUE` constant from `ContractAnalyzer`, as the rational
threshold the parsed contract value is compared against. -/
def MIN_CONTRACT_VALUE : ℚ := 50000

/-- `Contract` from `src/types.ts`. -/
structure Contract where
  _id : Nat
  reference_number : String
  procurement_id : String
  vendor_name : String
  vendor_postal_code : Option String
  buyer_name : Option String
  contract_date : String
  economic_object_code : String
  description_en : String
  description_fr : String
  contract_period_start : String
  delivery_date : String
  contract_value : String
  original_value : String
  amendment_value : String
  comments_en : Option String
  commodity_type : String
  commodity_code : String
  country_of_vendor : String
  solicitation_procedure : String
  limited_tendering_reason : String
  trade_agreement_exceptions : String
  indigenous_business : Option String
  former_public_servant : String
  number_of_bids : Option String
  article_6_exceptions : Option String
  standing_offer_number : Option String
  instrument_type : String
  ministers_office : String
deriving DecidableEq, Repr

/-- `risk_level` enumeration of `FlaggedContract` from `src/types.ts`. -/
inductive RiskLevel where
  | high
  | medium
  | low
deriving DecidableEq, Repr

/-- `risk_factors` structure of `FlaggedContract` from `src/types.ts`. -/
structure RiskFactors where
  procurement_issues : Option (List String)
  financial_issues : Option (List String)
  conflict_of_interest : Option (List String)
  timeline_issues : Option (List String)
  public_interest_factors : Option (List String)
deriving DecidableEq, Repr

/-- `FlaggedContract` from `src/types.ts`. -/
structure FlaggedContract where
  contract_id : String
  vendor_name : String
  value : String
  description : String
  original_value : String
  amendment_value : String
  start_date : String
  end_date : String
  number_of_bids : Option String
  procurement_type : String
  reason_for_flag : String
  risk_level : RiskLevel
  risk_factors : RiskFactors
deriving DecidableEq, Repr

/-- `result` field of `ApiResponse` from `src/types.ts` (the optional
`_links.next` field is never consulted by the analyzer and is omitted). -/
structure ApiResult where
  records : List Contract
  total : Nat
deriving DecidableEq, Repr

/-- `ApiResponse` from `src/types.ts`. -/
structure ApiResponse where
  success : Bool
  result : ApiResult
deriving DecidableEq, Repr

/-! ## Monetary value parsing (`parseContractValue`) -/

/-- One character kept by the regex replace
`value.replace(/[^0-9.-]+/g, "")`: a digit, a decimal point or a minus. -/
def isKeptChar (c : Char) : Bool :=
  c.isDigit || c = '.' || c = '-'

/-- The `value.replace(/[^0-9.-]+/g, "")` step of `parseContractValue`:
drop every character that is not a digit, a decimal point or a minus. -/
def stripNonNumeric (s : String) : String :=
  String.mk (s.toList.filter isKeptChar)

/-- Digit run to a natural number (most significant first). -/
def digitsToNat (l : List Char) : Nat :=
  l.foldl (fun n c => 10 * n + (c.toNat - '0'.toNat)) 0

/-- The exact decimal number produced by a successful `parseFloat` on the
post-strip alphabet: the value is `(-1)^neg * mantissa / 10^scale`. -/
structure ParsedFloat where
  neg : Bool
  mantissa : Nat
  scale : Nat
deriving DecidableEq, Repr

/-- The rational value denoted by a `ParsedFloat`. -/
def ParsedFloat.toRat (p : ParsedFloat) : ℚ :=
  (if p.neg then (-1 : ℚ) else 1) * p.mantissa / (10 : ℚ) ^ p.scale

/-- JavaScript `parseFloat` on a string containing only digits, `.` and `-`
(the alphabet left by `stripNonNumeric`), sign already handled: an
optional integer part, an optional fraction after the first `.`, trailing
garbage ignored; `none` models `NaN` (no digits parsed). The result
`(mantissa, scale)` denotes `mantissa / 10^scale`. -/
def jsParseFloatUnsigned (l : List Char) : Option (Nat × Nat) :=
  let intDigits := l.takeWhile Char.isDigit
  let rest := l.dropWhile Char.isDigit
  match rest with
  | '.' :: rest2 =>
    let fracDigits := rest2.takeWhile Char.isDigit
    if intDigits = [] ∧ fracDigits = [] then none
    else some (digitsToNat intDigits * 10 ^ fracDigits.length + digitsToNat fracDigits,
      fracDigits.length)
  | _ => if intDigits = [] then none else some (digitsToNat intDigits, 0)

/-- JavaScript `parseFloat`, restricted to the post-strip alphabet:
an optional leading minus sign, then an unsigned decimal number. -/
def jsParseFloat (s : String) : Option ParsedFloat :=
  match s.toList with
  | '-' :: rest => (jsParseFloatUnsigned rest).map (fun mk => ⟨true, mk.1, mk.2⟩)
  | l => (jsParseFloatUnsigned l).map (fun mk => ⟨false, mk.1, mk.2⟩)

/-- `ContractAnalyzer.parseContractValue`:
`parseFloat(value.replace(/[^0-9.-]+/g, ""))`, as the rational number the
parsed float denotes; `none` models `NaN`. -/
def parseContractValue (value : String) : Option ℚ :=
  (jsParseFloat (stripNonNumeric value)).map ParsedFloat.toRat

/-! ## Processed-identifier set (`this.processedIds`, a JS `Set<string>`) -/

/-- Membership test of the JS `Set<string>` holding processed identifiers. -/
def idsContains : List String → String → Bool
  | [], _ => false
  | x :: rest, y => if x = y then true else idsContains rest y

/-- `Set.add`: insert an identifier, keeping set semantics. -/
def insertId (ids : List String) (x : String) : List String :=
  if idsContains ids x then ids else ids ++ [x]

/-! ## Durable log -/

/-- One line of the NDJSON output file: either a line that `JSON.parse`
accepts as a flagged-contract record, or a corrupt (non-parseable) line. -/
inductive LogLine where
  | good : FlaggedContract → LogLine
  | corrupt : LogLine
deriving DecidableEq, Repr

/-- `ContractAnalyzer.loadProcessedIds`: iterate over the lines of the
output file, `JSON.parse` each one and add its `contract_id` to the set.
A corrupt line throws inside the loop; the surrounding `try/catch` swallows
the error, so the loop stops there — identifiers added before the corrupt
line are kept, lines after it are never reached. -/
def loadProcessedIds : List LogLine → List String → List String
  | [], acc => acc
  | .good f :: rest, acc => loadProcessedIds rest (insertId acc f.contract_id)
  | .corrupt :: _, acc => acc

/-- The state backed by the output file plus the in-memory set:
the log's lines and the processed identifiers. -/
structure SinkState where
  log : List LogLine
  ids : List String
deriving DecidableEq, Repr

/-! ## Filter (`filterHighValueContracts`) -/

/-- The `isHighValue` test of `filterHighValueContracts`:
`parseContractValue(contract.contract_value) >= MIN_CONTRACT_VALUE`,
where a `NaN` parse (`none`) fails the comparison. The comparison is
computed exactly on the parsed decimal
(`50000 ≤ (-1)^neg * mantissa / 10^scale`); `isHighValue_iff_parse` below
shows it agrees with `MIN_CONTRACT_VALUE ≤ parseContractValue _`. -/
def isHighValue (c : Contract) : Bool :=
  match jsParseFloat (stripNonNumeric c.contract_value) with
  | none => false
  | some p => !p.neg && decide (50000 * 10 ^ p.scale ≤ p.mantissa)

/-- The predicate of `ContractAnalyzer.filterHighValueContracts`:
`isHighValue && isNew`, where `isNew` is
`!this.processedIds.has(contract.procurement_id)`. -/
def contractPasses (ids : List String) (c : Contract) : Bool :=
  isHighValue c && !(idsContains ids c.procurement_id)

/-- `ContractAnalyzer.filterHighValueContracts`. -/
def filterHighValueContracts (ids : List String) (contracts : List Contract) :
    List Contract :=
  contracts.filter (contractPasses ids)

/-! ## Page fetch with retry (`getContractsWithRetry`) -/

/-- Observable trace of one `getContractsWithRetry` call: the value it
returns (or the error it finally rethrows), the delays it slept
(in order), and the number of fetch attempts it made. -/
structure RetryTrace where
  result : Except Unit ApiResponse
  delays : List Nat
  attempts : Nat
deriving Repr

/-- Recursion core of `getContractsWithRetry`, structural in the number of
retries still allowed. `remaining` is kept equal to
`MAX_RETRIES - retries`, so `remaining > 0` is exactly the source's guard
`retries < MAX_RETRIES` (and for `retries ≥ MAX_RETRIES` both deny a
retry). -/
def getContractsWithRetryGo (fetchOutcome : Nat → Except Unit ApiResponse) :
    Nat → Nat → RetryTrace
  | retries, remaining =>
    match fetchOutcome retries with
    | .ok data => ⟨.ok data, [], 1⟩
    | .error e =>
      match remaining with
      | rem + 1 =>
        let t := getContractsWithRetryGo fetchOutcome (retries + 1) rem
        ⟨t.result, RATE_LIMIT_DELAY * (retries + 1) :: t.delays, t.attempts + 1⟩
      | 0 => ⟨.error e, [], 1⟩

/-- `ContractAnalyzer.getContractsWithRetry`, with the network modelled as
an oracle `fetchOutcome : attempt ↦ outcome`: on failure, while
`retries < MAX_RETRIES`, sleep `RATE_LIMIT_DELAY * (retries + 1)` and
recurse with `retries + 1`; once retries are exhausted, rethrow. -/
def getContractsWithRetry (fetchOutcome : Nat → Except Unit ApiResponse)
    (retries : Nat) : RetryTrace :=
  getContractsWithRetryGo fetchOutcome retries (MAX_RETRIES - retries)

/-! ## Result sink (`appendFlaggedContracts`) -/

/-- `Array.prototype.join('\n')` over the serialized records. -/
def joinLines : List String → String
  | [] => ""
  | [x] => x
  | x :: xs => x ++ "\n" ++ joinLines xs

/-- `ContractAnalyzer.appendFlaggedContracts`, with `JSON.stringify`
abstracted as `serialize` and the success of the `appendFile` call as
`appendOk`. Returns `(success, state after the call)`: when the joined
NDJSON string is empty nothing happens; otherwise the file is appended
(one line per record) and, only after that append succeeded, every
record's `contract_id` is added to the processed set. A failed append
leaves both the log and the set untouched and reports failure (the
exception propagates to the caller). -/
def appendFlaggedContracts (serialize : FlaggedContract → String)
    (appendOk : Bool) (contracts : List FlaggedContract) (st : SinkState) :
    Bool × SinkState :=
  let ndjsonLines := joinLines (contracts.map serialize)
  if ndjsonLines = "" then (true, st)
  else if appendOk then
    (true, { log := st.log ++ contracts.map LogLine.good,
             ids := contracts.foldl (fun ids c => insertId ids c.contract_id) st.ids })
  else (false, st)

/-! ## Classifier (`analyzeContractsWithGPT`) -/

/-- Outcome of one OpenAI chat-completions attempt, as observed by
`analyzeContractsWithGPT`: the call may throw (`apiError`), return a
response with no message content (`noContent`), return content that
`JSON.parse` rejects (`badJson`), or return parseable content whose
`contracts` field (defaulted to `[]` when absent) is `flagged`. -/
inductive GptOutcome where
  | apiError
  | noContent
  | badJson
  | good : List FlaggedContract → GptOutcome
deriving DecidableEq, Repr

/-- Recursion core of `analyzeContractsWithGPT`, structural in the number
of retries still allowed (`remaining = MAX_RETRIES - retries`, encoding
the source's `retries < MAX_RETRIES` guard as `remaining > 0`). -/
def analyzeContractsWithGPTGo (contracts : List Contract)
    (outcome : Nat → GptOutcome) : Nat → Nat → List FlaggedContract
  | retries, remaining =>
    match outcome retries, remaining with
    | .noContent, _ => []
    | .good flagged, _ => flagged
    | .apiError, rem + 1 => analyzeContractsWithGPTGo contracts outcome (retries + 1) rem
    | .apiError, 0 => []
    | .badJson, rem + 1 => analyzeContractsWithGPTGo contracts outcome (retries + 1) rem
    | .badJson, 0 => []

/-- `ContractAnalyzer.analyzeContractsWithGPT`, with the OpenAI call
modelled as an oracle `outcome : attempt ↦ GptOutcome`. Missing content
returns `[]` at once; a thrown call or unparsable content retries while
`retries < MAX_RETRIES` and finally returns `[]`; parseable content
returns its (unvalidated) list of flagged contracts. -/
def analyzeContractsWithGPT (contracts : List Contract)
    (outcome : Nat → GptOutcome) (retries : Nat) : List FlaggedContract :=
  analyzeContractsWithGPTGo contracts outcome retries (MAX_RETRIES - retries)

/-! ## Orchestrator (`analyze`) -/

/-- The mutable counters of `analyze` (`totalContracts`, `totalHighValue`,
`totalFlagged`, `batchNumber`). -/
structure RunTotals where
  totalContracts : Nat
  totalHighValue : Nat
  totalFlagged : Nat
  batchNumber : Nat
deriving DecidableEq, Repr

/-- The in-memory state of one iteration of `analyze`'s `while` loop. -/
structure LoopState where
  offset : Nat
  totals : RunTotals
  sink : SinkState
deriving DecidableEq, Repr

/-- The external world as seen by `analyze`: the HTTP fetch outcome per
(offset, attempt), the classifier step (already wrapped in its own retry
policy, hence total), the record serializer, and whether the durable
append at a given offset succeeds. -/
structure AnalyzeCfg where
  fetchOutcome : Nat → Nat → Except Unit ApiResponse
  classifyStep : List Contract → List FlaggedContract
  serialize : FlaggedContract → String
  appendOk : Nat → Bool

/-- Outcome of one iteration of the `while` loop: continue with a new
state, break cleanly (end of stream), or rethrow an error after logging
the reported offset (the `catch` block). -/
inductive StepOutcome where
  | next : LoopState → StepOutcome
  | finished : LoopState → StepOutcome
  | fatal : Nat → LoopState → StepOutcome
deriving DecidableEq, Repr

/-- The body of `analyze`'s `while` loop after a successful fetch with a
non-empty record list: filter, classify when there are candidates, append
when there are flagged results (a failed append is rethrown with the
current offset, counters and set untouched), update counters and advance
the offset by `BATCH_SIZE`. Counters are updated only inside the
`highValueContracts.length > 0` branch, exactly as in the source. -/
def processBatch (cfg : AnalyzeCfg) (st : LoopState)
    (allContracts : List Contract) : StepOutcome :=
  let highValueContracts := filterHighValueContracts st.sink.ids allContracts
  if 0 < highValueContracts.length then
    let flagged := cfg.classifyStep highValueContracts
    let res :=
      if 0 < flagged.length then
        appendFlaggedContracts cfg.serialize (cfg.appendOk st.offset) flagged st.sink
      else (true, st.sink)
    if res.1 then
      .next { offset := st.offset + BATCH_SIZE,
              totals := { totalContracts := st.totals.totalContracts + allContracts.length,
                          totalHighValue := st.totals.totalHighValue + highValueContracts.length,
                          totalFlagged := st.totals.totalFlagged + flagged.length,
                          batchNumber := st.totals.batchNumber + 1 },
              sink := res.2 }
    else .fatal st.offset { st with sink := res.2 }
  else
    .next { offset := st.offset + BATCH_SIZE,
            totals := { st.totals with batchNumber := st.totals.batchNumber + 1 },
            sink := st.sink }

/-- One iteration of `analyze`'s `while` loop: fetch with retry (an
exhausted fetch is rethrown with the current offset as the reported
resume point), break on `!data.success || !data.result.records.length`,
otherwise process the batch. -/
def analyzeStep (cfg : AnalyzeCfg) (st : LoopState) : StepOutcome :=
  match (getContractsWithRetry (cfg.fetchOutcome st.offset) 0).result with
  | .error _ => .fatal st.offset st
  | .ok data =>
    if !data.success || data.result.records.isEmpty then .finished st
    else processBatch cfg st data.result.records

/-- Result of running `analyze`'s loop: clean termination, a rethrown
error carrying the reported offset, or exhaustion of the step budget
(the loop in the source is unbounded; claims are stated for budgets
large enough to reach the end of the finite source). -/
inductive AnalyzeResult where
  | done : LoopState → AnalyzeResult
  | failed : Nat → LoopState → AnalyzeResult
  | outOfFuel : LoopState → AnalyzeResult
deriving DecidableEq, Repr

/-- `analyze`'s `while (true)` loop, driven by a step budget. -/
def analyzeLoop (cfg : AnalyzeCfg) : Nat → LoopState → AnalyzeResult
  | 0, st => .outOfFuel st
  | fuel + 1, st =>
    match analyzeStep cfg st with
    | .finished st' => .done st'
    | .fatal off st' => .failed off st'
    | .next st' => analyzeLoop cfg fuel st'

/-- The loop state `analyze(startOffset)` builds before entering its
`while` loop: fresh counters (`batchNumber` starts at 1) and the
identifier set loaded from the output file. -/
def initState (startOffset : Nat) (initialLog : List LogLine) : LoopState :=
  { offset := startOffset,
    totals := { totalContracts := 0, totalHighValue := 0,
                totalFlagged := 0, batchNumber := 1 },
    sink := { log := initialLog, ids := loadProcessedIds initialLog [] } }

/-- `ContractAnalyzer.analyze(startOffset)`: load the processed ids from
the output file, then run the loop from the given offset. -/
def analyze (cfg : AnalyzeCfg) (fuel : Nat) (startOffset : Nat)
    (initialLog : List LogLine) : AnalyzeResult :=
  analyzeLoop cfg fuel (initState startOffset initialLog)

/-- The loop state carried by any `AnalyzeResult`. -/
def resultState : AnalyzeResult → LoopState
  | .done st => st
  | .failed _ st => st
  | .outOfFuel st => st

/-- The durable log at the end of a run. -/
def resultLog (r : AnalyzeResult) : List LogLine :=
  (resultState r).sink.log

/-- Whether a run terminated cleanly (end of stream). -/
def isDone : AnalyzeResult → Bool
  | .done _ => true
  | _ => false

/-- The page served at a given offset by a finite paginated source whose
pages are listed in order: page `offset / BATCH_SIZE`, and an empty page
(end of stream) past the end. -/
def pageAt (pages : List (List Contract)) (off : Nat) : List Contract :=
  pages.getD (off / BATCH_SIZE) []

/-- An `AnalyzeCfg` for a reliable finite paginated source (`pages`), a
per-record classifier judgment `judge` (the external classifier flags each
candidate independently), serializer `serialize`, and durable appends that
always succeed. -/
def mkCfg (pages : List (List Contract))
    (judge : Contract → Option FlaggedContract)
    (serialize : FlaggedContract → String) : AnalyzeCfg :=
  { fetchOutcome := fun off _ =>
      .ok { success := true, result := { records := pageAt pages off, total := 0 } },
    classifyStep := fun candidates => candidates.filterMap judge,
    serialize := serialize,
    appendOk := fun _ => true }

/-! ## Concrete sample values -/

/-- A contract with the given procurement id and contract value, all other
fields blank. -/
def mkContract (pid value : String) : Contract :=
  { _id := 0, reference_number := "", procurement_id := pid,
    vendor_name := "", vendor_postal_code := none, buyer_name := none,
    contract_date := "", economic_object_code := "", description_en := "",
    description_fr := "", contract_period_start := "", delivery_date := "",
    contract_value := value, original_value := "", amendment_value := "",
    comments_en := none, commodity_type := "", commodity_code := "",
    country_of_vendor := "", solicitation_procedure := "",
    limited_tendering_reason := "", trade_agreement_exceptions := "",
    indigenous_business := none, former_public_servant := "",
    number_of_bids := none, article_6_exceptions := none,
    standing_offer_number := none, instrument_type := "",
    ministers_office := "" }

/-- A flagged result with the given `contract_id`, all other fields blank. -/
def mkFlagged (cid : String) : FlaggedContract :=
  { contract_id := cid, vendor_name := "", value := "", description := "",
    original_value := "", amendment_value := "", start_date := "",
    end_date := "", number_of_bids := none, procurement_type := "",
    reason_for_flag := "", risk_level := .high,
    risk_factors := { procurement_issues := none, financial_issues := none,
                      conflict_of_interest := none, timeline_issues := none,
                      public_interest_factors := none } }

/-- The `contract_id`s of all well-formed lines of a log. -/
def idsOfGoodLines : List LogLine → List String
  | [] => []
  | .good f :: rest => f.contract_id :: idsOfGoodLines rest
  | .corrupt :: rest => idsOfGoodLines rest

/-- The `contract_id`s of the well-formed lines strictly before the first
corrupt line of a log (what `loadProcessedIds` actually reaches). -/
def goodIdsBeforeCorrupt : List LogLine → List String
  | [] => []
  | .good f :: rest => f.contract_id :: goodIdsBeforeCorrupt rest
  | .corrupt :: _ => []

/-- A source whose single page holds one high-value record with
`procurement_id` `"A"`, classified by an external judgment that stamps its
flagged result with the UNRELATED identifier `"B"` — legal behaviour for
the external classifier, which the analyzer never validates. -/
def cfgMismatchedIds : AnalyzeCfg :=
  mkCfg [[mkContract "A" "60000"]] (fun _ => some (mkFlagged "B")) (fun _ => "r")

/-- A reliable single-page high-value source whose durable append always
fails (e.g. disk full): the fetch never errors, yet the run dies. -/
def cfgAppendFails : AnalyzeCfg :=
  { fetchOutcome := fun off _ =>
      .ok { success := true, result := { records := pageAt [[mkContract "A" "60000"]] off, total := 0 } },
    classifyStep := fun candidates => candidates.filterMap (fun _ => some (mkFlagged "A")),
    serialize := fun _ => "r",
    appendOk := fun _ => false }

/-- A source whose single page holds one record below the value threshold:
the batch is fetched and filtered but yields zero candidates. -/
def cfgLowValuePage : AnalyzeCfg :=
  mkCfg [[mkContract "A" "10"]] (fun _ => none) (fun _ => "r")

/-- A well-behaved external judgment: it flags every candidate and stamps
the flagged result with the candidate's own `procurement_id`. -/
def cfgFaithfulJudge : AnalyzeCfg :=
  mkCfg [[mkContract "A" "60000"]] (fun c => some (mkFlagged c.procurement_id)) (fun _ => "r")

/-- The in-memory identifier set holds exactly the identifiers recorded on
the well-formed lines of the durable log. -/
def SinkCoherent (s : SinkState) : Prop :=
  ∀ x, x ∈ s.ids ↔ x ∈ idsOfGoodLines s.log

/-- Every line of the log is well-formed. -/
def LogAllGood (log : List LogLine) : Prop :=
  ∀ l ∈ log, l ≠ LogLine.corrupt

/-! ## Basic lemmas about the identifier set and the log -/

theorem idsContains_iff (l : List String) (x : String) :
    idsContains l x = true ↔ x ∈ l := by
  induction l with
  | nil => simp [idsContains]
  | cons a rest ih =>
    unfold idsContains
    by_cases h : a = x
    · simp [h]
    · simp only [if_neg h, ih, List.mem_cons]
      constructor
      · exact Or.inr
      · rintro (rfl | hx)
        · exact absurd rfl h
        · exact hx

theorem mem_insertId (ids : List String) (x y : String) :
    y ∈ insertId ids x ↔ y ∈ ids ∨ y = x := by
  unfold insertId
  by_cases h : idsContains ids x = true
  · rw [if_pos h]
    rw [idsContains_iff] at h
    constructor
    · exact Or.inl
    · rintro (hy | rfl)
      · exact hy
      · exact h
  · rw [if_neg h]
    simp

theorem mem_foldl_insertId {α : Type} (f : α → String) (l : List α)
    (ids : List String) (x : String) :
    x ∈ l.foldl (fun s a => insertId s (f a)) ids ↔
      x ∈ ids ∨ ∃ a ∈ l, f a = x := by
  induction l generalizing ids with
  | nil => simp
  | cons a rest ih =>
    simp only [List.foldl_cons, ih, mem_insertId, List.mem_cons]
    constructor
    · rintro (⟨hx | rfl⟩ | ⟨b, hb, rfl⟩)
      · exact Or.inl hx
      · exact Or.inr ⟨a, Or.inl rfl, rfl⟩
      · exact Or.inr ⟨b, Or.inr hb, rfl⟩
    · rintro (hx | ⟨b, (rfl | hb), rfl⟩)
      · exact Or.inl (Or.inl hx)
      · exact Or.inl (Or.inr rfl)
      · exact Or.inr ⟨b, hb, rfl⟩

theorem joinLines_ne_empty (l : List String) (hne : l ≠ [])
    (h : ∀ s ∈ l, s ≠ "") : joinLines l ≠ "" := by
  match l, hne with
  | [x], _ => exact h x (by simp)
  | x :: y :: rest, _ =>
    show x ++ "\n" ++ joinLines (y :: rest) ≠ ""
    intro hcontra
    have hlen := congrArg String.length hcontra
    simp only [String.length_append] at hlen
    have h1 : String.length "\n" = 1 := rfl
    have h2 : String.length "" = 0 := rfl
    omega

/-! ## Filter lemmas -/

/-- The exact integer comparison inside `isHighValue` agrees with the
rational statement `MIN_CONTRACT_VALUE ≤ parsed value`. -/
theorem isHighValue_iff_parse (c : Contract) :
    isHighValue c = true ↔
      ∃ q, parseContractValue c.contract_value = some q ∧ MIN_CONTRACT_VALUE ≤ q := by
  unfold isHighValue parseContractValue MIN_CONTRACT_VALUE
  cases h : jsParseFloat (stripNonNumeric c.contract_value) with
  | none => simp
  | some p =>
    simp only [Option.map_some, Option.some.injEq, Bool.and_eq_true, Bool.not_eq_true,
      decide_eq_true_eq]
    constructor
    · rintro ⟨hneg, hle⟩
      have hnegf : p.neg = false := by simpa using hneg
      refine ⟨p.toRat, rfl, ?_⟩
      unfold ParsedFloat.toRat
      rw [hnegf]
      simp only [Bool.false_eq_true, if_false, one_mul]
      rw [le_div_iff₀ (by positivity)]
      have h2 : ((50000 * 10 ^ p.scale : Nat) : ℚ) ≤ (p.mantissa : ℚ) := by exact_mod_cast hle
      push_cast at h2
      linarith
    · rintro ⟨q, hq, hle⟩
      obtain rfl : p.toRat = q := by injection hq
      unfold ParsedFloat.toRat at hle
      cases hneg : p.neg with
      | true =>
        exfalso
        rw [hneg] at hle
        simp only [if_true] at hle
        have h1 : ((-1 : ℚ)) * p.mantissa / 10 ^ p.scale ≤ 0 := by
          apply div_nonpos_of_nonpos_of_nonneg
          · simp [neg_nonneg]
          · positivity
        linarith
      | false =>
        refine ⟨rfl, ?_⟩
        rw [hneg] at hle
        simp only [Bool.false_eq_true, if_false, one_mul] at hle
        rw [le_div_iff₀ (by positivity)] at hle
        have h2 : ((50000 * 10 ^ p.scale : Nat) : ℚ) ≤ (p.mantissa : ℚ) := by
          push_cast
          linarith
        exact_mod_cast h2

/-- An unparsable (`NaN`) value always fails the threshold test. -/
theorem isHighValue_of_nan (c : Contract)
    (h : parseContractValue c.contract_value = none) : isHighValue c = false := by
  unfold parseContractValue at h
  unfold isHighValue
  cases hj : jsParseFloat (stripNonNumeric c.contract_value) with
  | none => rfl
  | some p => rw [hj] at h; simp at h

theorem mem_filterHighValueContracts (ids : List String)
    (contracts : List Contract) (c : Contract) :
    c ∈ filterHighValueContracts ids contracts ↔
      c ∈ contracts ∧ contractPasses ids c = true :=
  List.mem_filter

theorem contractPasses_iff (ids : List String) (c : Contract) :
    contractPasses ids c = true ↔
      isHighValue c = true ∧ c.procurement_id ∉ ids := by
  unfold contractPasses
  rw [Bool.and_eq_true, Bool.not_eq_true']
  rw [← Bool.not_eq_true (idsContains ids c.procurement_id), idsContains_iff]

/-! ## Retry-wrapper lemmas -/

theorem getContractsWithRetryGo_ok {fetch : Nat → Except Unit ApiResponse}
    {r : Nat} {p : ApiResponse} (h : fetch r = .ok p) (rem : Nat) :
    getContractsWithRetryGo fetch r rem = ⟨.ok p, [], 1⟩ := by
  unfold getContractsWithRetryGo
  rw [h]

theorem getContractsWithRetryGo_succ {fetch : Nat → Except Unit ApiResponse}
    {r : Nat} (h : fetch r = .error ()) (rem : Nat) :
    getContractsWithRetryGo fetch r (rem + 1) =
      ⟨(getContractsWithRetryGo fetch (r + 1) rem).result,
       RATE_LIMIT_DELAY * (r + 1) :: (getContractsWithRetryGo fetch (r + 1) rem).delays,
       (getContractsWithRetryGo fetch (r + 1) rem).attempts + 1⟩ := by
  conv_lhs => unfold getContractsWithRetryGo
  rw [h]

theorem getContractsWithRetryGo_zero {fetch : Nat → Except Unit ApiResponse}
    {r : Nat} (h : fetch r = .error ()) :
    getContractsWithRetryGo fetch r 0 = ⟨.error (), [], 1⟩ := by
  unfold getContractsWithRetryGo
  rw [h]

theorem getContractsWithRetry_ok {fetch : Nat → Except Unit ApiResponse}
    {r : Nat} {p : ApiResponse} (h : fetch r = .ok p) :
    getContractsWithRetry fetch r = ⟨.ok p, [], 1⟩ := by
  unfold getContractsWithRetry
  exact getContractsWithRetryGo_ok h _

theorem getContractsWithRetry_err {fetch : Nat → Except Unit ApiResponse}
    {r : Nat} (h : fetch r = .error ()) (hr : r < MAX_RETRIES) :
    getContractsWithRetry fetch r =
      ⟨(getContractsWithRetry fetch (r + 1)).result,
       RATE_LIMIT_DELAY * (r + 1) :: (getContractsWithRetry fetch (r + 1)).delays,
       (getContractsWithRetry fetch (r + 1)).attempts + 1⟩ := by
  have hrem : MAX_RETRIES - r = (MAX_RETRIES - (r + 1)) + 1 := by omega
  unfold getContractsWithRetry
  rw [hrem, getContractsWithRetryGo_succ h]

theorem getContractsWithRetry_exhausted {fetch : Nat → Except Unit ApiResponse}
    {r : Nat} (h : fetch r = .error ()) (hr : ¬ r < MAX_RETRIES) :
    getContractsWithRetry fetch r = ⟨.error (), [], 1⟩ := by
  have hrem : MAX_RETRIES - r = 0 := by omega
  unfold getContractsWithRetry
  rw [hrem, getContractsWithRetryGo_zero h]

/-- A fetch whose first `MAX_RETRIES + 1` attempts all fail returns the
error (retries exhausted). -/
theorem getContractsWithRetry_all_fail {fetch : Nat → Except Unit ApiResponse}
    (h : ∀ k, k ≤ MAX_RETRIES → fetch k = .error ()) :
    (getContractsWithRetry fetch 0).result = .error () := by
  have step : ∀ r, r ≤ MAX_RETRIES →
      (getContractsWithRetry fetch (MAX_RETRIES - r)).result = .error () := by
    intro r
    induction r with
    | zero =>
      intro _
      rw [getContractsWithRetry_exhausted (h _ (by omega)) (by omega)]
    | succ n ih =>
      intro hn
      have hlt : MAX_RETRIES - (n + 1) < MAX_RETRIES := by omega
      rw [getContractsWithRetry_err (h _ (by omega)) hlt]
      have : MAX_RETRIES - (n + 1) + 1 = MAX_RETRIES - n := by omega
      rw [this]
      exact ih (by omega)
  have := step MAX_RETRIES (le_refl _)
  simpa using this

theorem analyzeContractsWithGPTGo_fail {contracts : List Contract}
    {outcome : Nat → GptOutcome} {r : Nat}
    (h : outcome r = .apiError ∨ outcome r = .badJson) (rem : Nat) :
    analyzeContractsWithGPTGo contracts outcome r (rem + 1) =
      analyzeContractsWithGPTGo contracts outcome (r + 1) rem := by
  rcases h with h | h <;>
    · conv_lhs => unfold analyzeContractsWithGPTGo
      rw [h]

theorem analyzeContractsWithGPTGo_fail_zero {contracts : List Contract}
    {outcome : Nat → GptOutcome} {r : Nat}
    (h : outcome r = .apiError ∨ outcome r = .badJson) :
    analyzeContractsWithGPTGo contracts outcome r 0 = [] := by
  rcases h with h | h <;>
    · unfold analyzeContractsWithGPTGo
      rw [h]

theorem analyzeContractsWithGPT_fail {contracts : List Contract}
    {outcome : Nat → GptOutcome} {r : Nat}
    (h : outcome r = .apiError ∨ outcome r = .badJson) (hr : r < MAX_RETRIES) :
    analyzeContractsWithGPT contracts outcome r =
      analyzeContractsWithGPT contracts outcome (r + 1) := by
  have hrem : MAX_RETRIES - r = (MAX_RETRIES - (r + 1)) + 1 := by omega
  unfold analyzeContractsWithGPT
  rw [hrem, analyzeContractsWithGPTGo_fail h]

theorem analyzeContractsWithGPT_fail_exhausted {contracts : List Contract}
    {outcome : Nat → GptOutcome} {r : Nat}
    (h : outcome r = .apiError ∨ outcome r = .badJson) (hr : ¬ r < MAX_RETRIES) :
    analyzeContractsWithGPT contracts outcome r = [] := by
  have hrem : MAX_RETRIES - r = 0 := by omega
  unfold analyzeContractsWithGPT
  rw [hrem, analyzeContractsWithGPTGo_fail_zero h]

theorem analyzeContractsWithGPT_noContent {contracts : List Contract}
    {outcome : Nat → GptOutcome} {r : Nat} (h : outcome r = .noContent) :
    analyzeContractsWithGPT contracts outcome r = [] := by
  unfold analyzeContractsWithGPT analyzeContractsWithGPTGo
  rw [h]

theorem analyzeContractsWithGPT_good {contracts : List Contract}
    {outcome : Nat → GptOutcome} {r : Nat} {l : List FlaggedContract}
    (h : outcome r = .good l) :
    analyzeContractsWithGPT contracts outcome r = l := by
  unfold analyzeContractsWithGPT analyzeContractsWithGPTGo
  rw [h]

/-- A classifier call all of whose attempts throw or return unparsable
content returns the empty list. -/
theorem analyzeContractsWithGPT_all_fail {contracts : List Contract}
    {outcome : Nat → GptOutcome}
    (h : ∀ k, k ≤ MAX_RETRIES → outcome k = .apiError ∨ outcome k = .badJson) :
    analyzeContractsWithGPT contracts outcome 0 = [] := by
  have step : ∀ r, r ≤ MAX_RETRIES →
      analyzeContractsWithGPT contracts outcome (MAX_RETRIES - r) = [] := by
    intro r
    induction r with
    | zero =>
      intro _
      rw [analyzeContractsWithGPT_fail_exhausted (h _ (by omega)) (by omega)]
    | succ n ih =>
      intro hn
      have hlt : MAX_RETRIES - (n + 1) < MAX_RETRIES := by omega
      rw [analyzeContractsWithGPT_fail (h _ (by omega)) hlt]
      have heq : MAX_RETRIES - (n + 1) + 1 = MAX_RETRIES - n := by omega
      rw [heq]
      exact ih (by omega)
  have := step MAX_RETRIES (le_refl _)
  simpa using this

/-! ## Result-sink lemmas -/

theorem appendFlaggedContracts_nil (serialize : FlaggedContract → String)
    (appendOk : Bool) (st : SinkState) :
    appendFlaggedContracts serialize appendOk [] st = (true, st) := rfl

theorem appendFlaggedContracts_success (serialize : FlaggedContract → String)
    (contracts : List FlaggedContract) (st : SinkState)
    (hne : contracts ≠ []) (hser : ∀ c, serialize c ≠ "") :
    appendFlaggedContracts serialize true contracts st =
      (true, { log := st.log ++ contracts.map LogLine.good,
               ids := contracts.foldl (fun ids c => insertId ids c.contract_id) st.ids }) := by
  have hJ : joinLines (contracts.map serialize) ≠ "" := by
    refine joinLines_ne_empty (contracts.map serialize) (by simpa using hne) ?_
    intro s hs
    obtain ⟨c, _, rfl⟩ := List.mem_map.mp hs
    exact hser c
  unfold appendFlaggedContracts
  simp [hJ]

theorem appendFlaggedContracts_failure (serialize : FlaggedContract → String)
    (contracts : List FlaggedContract) (st : SinkState)
    (hne : contracts ≠ []) (hser : ∀ c, serialize c ≠ "") :
    appendFlaggedContracts serialize false contracts st = (false, st) := by
  have hJ : joinLines (contracts.map serialize) ≠ "" := by
    refine joinLines_ne_empty (contracts.map serialize) (by simpa using hne) ?_
    intro s hs
    obtain ⟨c, _, rfl⟩ := List.mem_map.mp hs
    exact hser c
  unfold appendFlaggedContracts
  simp [hJ]

/-- Whatever the outcome, the sink after an `appendFlaggedContracts` call
is either untouched or extended by the records and their identifiers; and
on a failed call it is always untouched. -/
theorem appendFlaggedContracts_cases (serialize : FlaggedContract → String)
    (appendOk : Bool) (contracts : List FlaggedContract) (st : SinkState) :
    (appendFlaggedContracts serialize appendOk contracts st).2 = st ∨
      ((appendFlaggedContracts serialize appendOk contracts st).1 = true ∧
       (appendFlaggedContracts serialize appendOk contracts st).2 =
        { log := st.log ++ contracts.map LogLine.good,
          ids := contracts.foldl (fun ids c => insertId ids c.contract_id) st.ids }) := by
  unfold appendFlaggedContracts
  by_cases h : joinLines (contracts.map serialize) = ""
  · rw [if_pos h]
    exact Or.inl rfl
  · rw [if_neg h]
    cases appendOk with
    | true => exact Or.inr ⟨rfl, rfl⟩
    | false => exact Or.inl rfl

theorem appendFlaggedContracts_failed_untouched
    (serialize : FlaggedContract → String) (appendOk : Bool)
    (contracts : List FlaggedContract) (st : SinkState)
    (h : (appendFlaggedContracts serialize appendOk contracts st).1 = false) :
    (appendFlaggedContracts serialize appendOk contracts st).2 = st := by
  rcases appendFlaggedContracts_cases serialize appendOk contracts st with h2 | ⟨h1, _⟩
  · exact h2
  · rw [h1] at h
    cases h

/-! ## Load lemmas -/

/-- `loadProcessedIds` inserts exactly the identifiers of the well-formed
lines before the first corrupt line. -/
theorem loadProcessedIds_eq (lines : List LogLine) (acc : List String) :
    loadProcessedIds lines acc =
      (goodIdsBeforeCorrupt lines).foldl insertId acc := by
  induction lines generalizing acc with
  | nil => rfl
  | cons l rest ih =>
    cases l with
    | good f => simp [loadProcessedIds, goodIdsBeforeCorrupt, ih]
    | corrupt => rfl

/-- Membership after a load of a fully well-formed log: everything in the
accumulator plus every line's `contract_id`. -/
theorem mem_loadProcessedIds_allgood (lines : List LogLine)
    (hgood : ∀ l ∈ lines, l ≠ LogLine.corrupt) (acc : List String) (x : String) :
    x ∈ loadProcessedIds lines acc ↔ x ∈ acc ∨ x ∈ idsOfGoodLines lines := by
  induction lines generalizing acc with
  | nil => simp [loadProcessedIds, idsOfGoodLines]
  | cons l rest ih =>
    cases l with
    | good f =>
      unfold loadProcessedIds idsOfGoodLines
      rw [ih (fun l hl => hgood l (List.mem_cons_of_mem _ hl)), mem_insertId]
      simp only [List.mem_cons]
      tauto
    | corrupt => exact absurd rfl (hgood _ (List.mem_cons_self _ _))

/-! ## Loop-step lemmas -/

theorem append_fst_false {serialize : FlaggedContract → String} {appendOk : Bool}
    {contracts : List FlaggedContract} {st : SinkState}
    (h : (appendFlaggedContracts serialize appendOk contracts st).1 = false) :
    appendOk = false := by
  unfold appendFlaggedContracts at h
  by_cases hJ : joinLines (contracts.map serialize) = ""
  · rw [if_pos hJ] at h
    cases h
  · rw [if_neg hJ] at h
    cases appendOk with
    | true => simp at h
    | false => rfl

/-- A rethrow out of the batch body reports the current offset, leaves the
whole loop state untouched, and can only come from a failed durable
append. -/
theorem processBatch_fatal {cfg : AnalyzeCfg} {st : LoopState}
    {allContracts : List Contract} {off : Nat} {st' : LoopState}
    (h : processBatch cfg st allContracts = .fatal off st') :
    off = st.offset ∧ st' = st ∧ cfg.appendOk st.offset = false := by
  unfold processBatch at h
  by_cases hhv : 0 < (filterHighValueContracts st.sink.ids allContracts).length
  · rw [if_pos hhv] at h
    simp only at h
    by_cases hres : (if 0 < (cfg.classifyStep (filterHighValueContracts st.sink.ids allContracts)).length then
        appendFlaggedContracts cfg.serialize (cfg.appendOk st.offset)
          (cfg.classifyStep (filterHighValueContracts st.sink.ids allContracts)) st.sink
      else (true, st.sink)).1 = true
    · rw [if_pos hres] at h
      cases h
    · rw [if_neg hres] at h
      cases h
      rw [Bool.not_eq_true] at hres
      by_cases hfl : 0 < (cfg.classifyStep (filterHighValueContracts st.sink.ids allContracts)).length
      · rw [if_pos hfl] at hres ⊢
        have hok := append_fst_false hres
        refine ⟨rfl, ?_, hok⟩
        rw [appendFlaggedContracts_failed_untouched _ _ _ _ hres]
      · rw [if_neg hfl] at hres
        cases hres
  · rw [if_neg hhv] at h
    cases h

/-- Full characterisation of a batch body that continued the loop: the
offset advances by `BATCH_SIZE` and the batch counter by one; with no
candidates, the sink and the other counters are untouched; with
candidates, the counters accumulate and the sink is extended exactly when
the classifier returned a non-empty flagged list. -/
theorem processBatch_next {cfg : AnalyzeCfg} {st : LoopState}
    {allContracts : List Contract} {st' : LoopState}
    (h : processBatch cfg st allContracts = .next st') :
    st'.offset = st.offset + BATCH_SIZE ∧
    st'.totals.batchNumber = st.totals.batchNumber + 1 ∧
    (¬ 0 < (filterHighValueContracts st.sink.ids allContracts).length →
       st'.sink = st.sink ∧
       st'.totals = { st.totals with batchNumber := st.totals.batchNumber + 1 }) ∧
    (0 < (filterHighValueContracts st.sink.ids allContracts).length →
       st'.totals.totalContracts = st.totals.totalContracts + allContracts.length ∧
       st'.totals.totalHighValue = st.totals.totalHighValue +
         (filterHighValueContracts st.sink.ids allContracts).length ∧
       st'.totals.totalFlagged = st.totals.totalFlagged +
         (cfg.classifyStep (filterHighValueContracts st.sink.ids allContracts)).length ∧
       (¬ 0 < (cfg.classifyStep (filterHighValueContracts st.sink.ids allContracts)).length →
          st'.sink = st.sink) ∧
       (0 < (cfg.classifyStep (filterHighValueContracts st.sink.ids allContracts)).length →
          (appendFlaggedContracts cfg.serialize (cfg.appendOk st.offset)
            (cfg.classifyStep (filterHighValueContracts st.sink.ids allContracts)) st.sink).1 = true ∧
          st'.sink = (appendFlaggedContracts cfg.serialize (cfg.appendOk st.offset)
            (cfg.classifyStep (filterHighValueContracts st.sink.ids allContracts)) st.sink).2)) := by
  unfold processBatch at h
  by_cases hhv : 0 < (filterHighValueContracts st.sink.ids allContracts).length
  · rw [if_pos hhv] at h
    simp only at h
    by_cases hfl : 0 < (cfg.classifyStep (filterHighValueContracts st.sink.ids allContracts)).length
    · rw [if_pos hfl] at h
      by_cases hres : (appendFlaggedContracts cfg.serialize (cfg.appendOk st.offset)
          (cfg.classifyStep (filterHighValueContracts st.sink.ids allContracts)) st.sink).1 = true
      · rw [if_pos hres] at h
        cases h
        refine ⟨rfl, rfl, fun hc => absurd hhv hc, fun _ => ⟨rfl, rfl, rfl, fun hc => absurd hfl hc,
          fun _ => ⟨hres, rfl⟩⟩⟩
      · rw [if_neg hres] at h
        cases h
    · rw [if_neg hfl] at h
      simp only [if_pos rfl] at h
      cases h
      refine ⟨rfl, rfl, fun hc => absurd hhv hc, fun _ => ⟨rfl, rfl, rfl, fun _ => rfl,
        fun hc => absurd hc hfl⟩⟩
  · rw [if_neg hhv] at h
    cases h
    exact ⟨rfl, rfl, fun _ => ⟨rfl, rfl⟩, fun hc => absurd hc hhv⟩

theorem processBatch_not_finished {cfg : AnalyzeCfg} {st : LoopState}
    {allContracts : List Contract} {st' : LoopState} :
    processBatch cfg st allContracts ≠ .finished st' := by
  intro h
  unfold processBatch at h
  by_cases hhv : 0 < (filterHighValueContracts st.sink.ids allContracts).length
  · rw [if_pos hhv] at h
    simp only at h
    by_cases hres : (if 0 < (cfg.classifyStep (filterHighValueContracts st.sink.ids allContracts)).length then
        appendFlaggedContracts cfg.serialize (cfg.appendOk st.offset)
          (cfg.classifyStep (filterHighValueContracts st.sink.ids allContracts)) st.sink
      else (true, st.sink)).1 = true
    · rw [if_pos hres] at h
      cases h
    · rw [if_neg hres] at h
      cases h
  · rw [if_neg hhv] at h
    cases h

/-- Unfolding `analyzeStep` under a failed fetch. -/
theorem analyzeStep_error {cfg : AnalyzeCfg} {st : LoopState} {e : Unit}
    (hf : (getContractsWithRetry (cfg.fetchOutcome st.offset) 0).result = .error e) :
    analyzeStep cfg st = .fatal st.offset st := by
  unfold analyzeStep
  rw [hf]

/-- Unfolding `analyzeStep` under a successful fetch. -/
theorem analyzeStep_ok {cfg : AnalyzeCfg} {st : LoopState} {data : ApiResponse}
    (hf : (getContractsWithRetry (cfg.fetchOutcome st.offset) 0).result = .ok data) :
    analyzeStep cfg st =
      if (!data.success || data.result.records.isEmpty) then .finished st
      else processBatch cfg st data.result.records := by
  unfold analyzeStep
  rw [hf]

/-- A cleanly broken iteration leaves the loop state untouched. -/
theorem analyzeStep_finished {cfg : AnalyzeCfg} {st st' : LoopState}
    (h : analyzeStep cfg st = .finished st') : st' = st := by
  cases hf : (getContractsWithRetry (cfg.fetchOutcome st.offset) 0).result with
  | error e => rw [analyzeStep_error hf] at h; cases h
  | ok data =>
    rw [analyzeStep_ok hf] at h
    by_cases hstop : (!data.success || data.result.records.isEmpty) = true
    · rw [if_pos hstop] at h
      cases h
      rfl
    · rw [if_neg hstop] at h
      exact absurd h processBatch_not_finished

/-- A fatal iteration reports the current offset, keeps the loop state
untouched, and is caused by an exhausted fetch or a failed durable
append — nothing else. -/
theorem analyzeStep_fatal {cfg : AnalyzeCfg} {st : LoopState} {off : Nat}
    {st' : LoopState} (h : analyzeStep cfg st = .fatal off st') :
    off = st.offset ∧ st' = st ∧
      ((getContractsWithRetry (cfg.fetchOutcome st.offset) 0).result = .error () ∨
       cfg.appendOk st.offset = false) := by
  cases hf : (getContractsWithRetry (cfg.fetchOutcome st.offset) 0).result with
  | error e =>
    rw [analyzeStep_error hf] at h
    cases h
    cases e
    exact ⟨rfl, rfl, Or.inl rfl⟩
  | ok data =>
    rw [analyzeStep_ok hf] at h
    by_cases hstop : (!data.success || data.result.records.isEmpty) = true
    · rw [if_pos hstop] at h
      cases h
    · rw [if_neg hstop] at h
      obtain ⟨h1, h2, h3⟩ := processBatch_fatal h
      exact ⟨h1, h2, Or.inr h3⟩

/-- A continuing iteration comes from a successful fetch with a
successful, non-empty page that the batch body carried forward. -/
theorem analyzeStep_next {cfg : AnalyzeCfg} {st st' : LoopState}
    (h : analyzeStep cfg st = .next st') :
    ∃ data, (getContractsWithRetry (cfg.fetchOutcome st.offset) 0).result = .ok data ∧
      data.success = true ∧ data.result.records ≠ [] ∧
      processBatch cfg st data.result.records = .next st' := by
  cases hf : (getContractsWithRetry (cfg.fetchOutcome st.offset) 0).result with
  | error e => rw [analyzeStep_error hf] at h; cases h
  | ok data =>
    rw [analyzeStep_ok hf] at h
    by_cases hstop : (!data.success || data.result.records.isEmpty) = true
    · rw [if_pos hstop] at h
      cases h
    · rw [if_neg hstop] at h
      simp only [Bool.or_eq_true, Bool.not_eq_true', List.isEmpty_iff, not_or,
        Bool.not_eq_false] at hstop
      exact ⟨data, rfl, hstop.1, hstop.2, h⟩

/-- A continuing iteration only ever grows the identifier set. -/
theorem analyzeStep_next_mono {cfg : AnalyzeCfg} {st st' : LoopState}
    (h : analyzeStep cfg st = .next st') :
    ∀ x, x ∈ st.sink.ids → x ∈ st'.sink.ids := by
  obtain ⟨data, _, _, _, hpb⟩ := analyzeStep_next h
  obtain ⟨_, _, hempty, hfull⟩ := processBatch_next hpb
  intro x hx
  by_cases hhv : 0 < (filterHighValueContracts st.sink.ids data.result.records).length
  · obtain ⟨_, _, _, hnofl, hfl⟩ := hfull hhv
    by_cases hflag : 0 < (cfg.classifyStep (filterHighValueContracts st.sink.ids data.result.records)).length
    · obtain ⟨_, hsink⟩ := hfl hflag
      rw [hsink]
      rcases appendFlaggedContracts_cases cfg.serialize (cfg.appendOk st.offset)
        (cfg.classifyStep (filterHighValueContracts st.sink.ids data.result.records)) st.sink with
        hsame | ⟨_, hext⟩
      · rw [hsame]
        exact hx
      · rw [hext]
        exact (mem_foldl_insertId _ _ _ _).mpr (Or.inl hx)
    · rw [hnofl hflag]
      exact hx
  · rw [(hempty hhv).1]
    exact hx

/-- A continuing iteration either leaves the sink alone or extends it by
the freshly flagged records and their identifiers. -/
theorem analyzeStep_next_sink {cfg : AnalyzeCfg} {st st' : LoopState}
    (h : analyzeStep cfg st = .next st') :
    st'.sink = st.sink ∨
      ∃ fs : List FlaggedContract,
        st'.sink.log = st.sink.log ++ fs.map LogLine.good ∧
        st'.sink.ids = fs.foldl (fun ids c => insertId ids c.contract_id) st.sink.ids := by
  obtain ⟨data, _, _, _, hpb⟩ := analyzeStep_next h
  obtain ⟨_, _, hempty, hfull⟩ := processBatch_next hpb
  by_cases hhv : 0 < (filterHighValueContracts st.sink.ids data.result.records).length
  · obtain ⟨_, _, _, hnofl, hfl⟩ := hfull hhv
    by_cases hflag : 0 < (cfg.classifyStep (filterHighValueContracts st.sink.ids data.result.records)).length
    · obtain ⟨_, hsink⟩ := hfl hflag
      rcases appendFlaggedContracts_cases cfg.serialize (cfg.appendOk st.offset)
        (cfg.classifyStep (filterHighValueContracts st.sink.ids data.result.records)) st.sink with
        hsame | ⟨_, hext⟩
      · rw [hsink, hsame]
        exact Or.inl rfl
      · rw [hsink, hext]
        exact Or.inr ⟨_, rfl, rfl⟩
    · exact Or.inl (hnofl hflag)
  · exact Or.inl (hempty hhv).1

/-- Identifiers only accumulate over a completed run. -/
theorem analyzeLoop_mono_ids {cfg : AnalyzeCfg} {fuel : Nat} {st stEnd : LoopState}
    (h : analyzeLoop cfg fuel st = .done stEnd) :
    ∀ x, x ∈ st.sink.ids → x ∈ stEnd.sink.ids := by
  induction fuel generalizing st with
  | zero => cases h
  | succ n ih =>
    unfold analyzeLoop at h
    cases hstep : analyzeStep cfg st with
    | finished st1 =>
      rw [hstep] at h
      cases h
      rw [analyzeStep_finished hstep]
      exact fun x hx => hx
    | fatal off st1 => rw [hstep] at h; cases h
    | next st1 =>
      rw [hstep] at h
      exact fun x hx => ih h x (analyzeStep_next_mono hstep x hx)

/-- A failed run is caused by exactly one fatal iteration, whose offset it
reports. -/
theorem analyzeLoop_failed_source {cfg : AnalyzeCfg} {fuel : Nat}
    {st stErr : LoopState} {off : Nat}
    (h : analyzeLoop cfg fuel st = .failed off stErr) :
    ∃ stb, analyzeStep cfg stb = .fatal off stErr := by
  induction fuel generalizing st with
  | zero => cases h
  | succ n ih =>
    unfold analyzeLoop at h
    cases hstep : analyzeStep cfg st with
    | finished st1 => rw [hstep] at h; cases h
    | fatal offb st1 =>
      rw [hstep] at h
      cases h
      exact ⟨st, hstep⟩
    | next st1 =>
      rw [hstep] at h
      exact ih h

/-! ## Sink coherence and log well-formedness invariants -/

theorem idsOfGoodLines_append (l1 l2 : List LogLine) :
    idsOfGoodLines (l1 ++ l2) = idsOfGoodLines l1 ++ idsOfGoodLines l2 := by
  induction l1 with
  | nil => rfl
  | cons l rest ih =>
    cases l with
    | good f => simp [idsOfGoodLines, ih]
    | corrupt => simp [idsOfGoodLines, ih]

theorem idsOfGoodLines_map_good (fs : List FlaggedContract) :
    idsOfGoodLines (fs.map LogLine.good) = fs.map FlaggedContract.contract_id := by
  induction fs with
  | nil => rfl
  | cons f rest ih => simp [idsOfGoodLines, ih]

theorem analyzeStep_next_coherent {cfg : AnalyzeCfg} {st st' : LoopState}
    (h : analyzeStep cfg st = .next st') (hc : SinkCoherent st.sink) :
    SinkCoherent st'.sink := by
  rcases analyzeStep_next_sink h with hsame | ⟨fs, hlog, hids⟩
  · rw [hsame]
    exact hc
  · intro x
    rw [hids, hlog, mem_foldl_insertId, idsOfGoodLines_append, idsOfGoodLines_map_good,
      List.mem_append, hc x]
    constructor
    · rintro (hx | ⟨f, hf, rfl⟩)
      · exact Or.inl hx
      · exact Or.inr (List.mem_map_of_mem _ hf)
    · rintro (hx | hx)
      · exact Or.inl hx
      · obtain ⟨f, hf, rfl⟩ := List.mem_map.mp hx
        exact Or.inr ⟨f, hf, rfl⟩

theorem analyzeStep_next_allgood {cfg : AnalyzeCfg} {st st' : LoopState}
    (h : analyzeStep cfg st = .next st') (hg : LogAllGood st.sink.log) :
    LogAllGood st'.sink.log := by
  rcases analyzeStep_next_sink h with hsame | ⟨fs, hlog, _⟩
  · rw [hsame]
    exact hg
  · rw [hlog]
    intro l hl
    rcases List.mem_append.mp hl with hl | hl
    · exact hg l hl
    · obtain ⟨f, _, rfl⟩ := List.mem_map.mp hl
      intro hcontra
      cases hcontra

theorem analyzeLoop_done_coherent {cfg : AnalyzeCfg} {fuel : Nat}
    {st stEnd : LoopState} (h : analyzeLoop cfg fuel st = .done stEnd)
    (hc : SinkCoherent st.sink) : SinkCoherent stEnd.sink := by
  induction fuel generalizing st with
  | zero => cases h
  | succ n ih =>
    unfold analyzeLoop at h
    cases hstep : analyzeStep cfg st with
    | finished st1 =>
      rw [hstep] at h
      cases h
      rw [analyzeStep_finished hstep]
      exact hc
    | fatal off st1 => rw [hstep] at h; cases h
    | next st1 =>
      rw [hstep] at h
      exact ih h (analyzeStep_next_coherent hstep hc)

theorem analyzeLoop_done_allgood {cfg : AnalyzeCfg} {fuel : Nat}
    {st stEnd : LoopState} (h : analyzeLoop cfg fuel st = .done stEnd)
    (hg : LogAllGood st.sink.log) : LogAllGood stEnd.sink.log := by
  induction fuel generalizing st with
  | zero => cases h
  | succ n ih =>
    unfold analyzeLoop at h
    cases hstep : analyzeStep cfg st with
    | finished st1 =>
      rw [hstep] at h
      cases h
      rw [analyzeStep_finished hstep]
      exact hg
    | fatal off st1 => rw [hstep] at h; cases h
    | next st1 =>
      rw [hstep] at h
      exact ih h (analyzeStep_next_allgood hstep hg)

/-! ## Lemmas about a reliable finite paginated source (`mkCfg`) -/

theorem mkCfg_fetch_result (pages : List (List Contract))
    (judge : Contract → Option FlaggedContract)
    (serialize : FlaggedContract → String) (off : Nat) :
    (getContractsWithRetry ((mkCfg pages judge serialize).fetchOutcome off) 0).result =
      .ok { success := true, result := { records := pageAt pages off, total := 0 } } := by
  rw [getContractsWithRetry_ok rfl]

theorem analyzeStep_mkCfg (pages : List (List Contract))
    (judge : Contract → Option FlaggedContract)
    (serialize : FlaggedContract → String) (st : LoopState) :
    analyzeStep (mkCfg pages judge serialize) st =
      if (pageAt pages st.offset).isEmpty then .finished st
      else processBatch (mkCfg pages judge serialize) st (pageAt pages st.offset) := by
  rw [analyzeStep_ok (mkCfg_fetch_result pages judge serialize st.offset)]
  simp only [Bool.not_true, Bool.false_or]

/-- In a continuing batch of a reliable run, the identifier of every
record flagged out of the current candidates ends up in the new set. -/
theorem analyzeStep_mkCfg_flagged_ids {pages : List (List Contract)}
    {judge : Contract → Option FlaggedContract}
    {serialize : FlaggedContract → String} {st st' : LoopState}
    (Hser : ∀ f, serialize f ≠ "")
    (h : analyzeStep (mkCfg pages judge serialize) st = .next st') :
    ∀ f ∈ (filterHighValueContracts st.sink.ids (pageAt pages st.offset)).filterMap judge,
      f.contract_id ∈ st'.sink.ids := by
  intro f hf
  rw [analyzeStep_mkCfg] at h
  by_cases hempty : (pageAt pages st.offset).isEmpty
  · rw [if_pos hempty] at h
    cases h
  · rw [if_neg hempty] at h
    obtain ⟨_, _, _, hfull⟩ := processBatch_next h
    have hfl : 0 < ((mkCfg pages judge serialize).classifyStep
        (filterHighValueContracts st.sink.ids (pageAt pages st.offset))).length := by
      show 0 < ((filterHighValueContracts st.sink.ids (pageAt pages st.offset)).filterMap judge).length
      cases hl : (filterHighValueContracts st.sink.ids (pageAt pages st.offset)).filterMap judge with
      | nil => rw [hl] at hf; cases hf
      | cons a l => simp
    have hhv : 0 < (filterHighValueContracts st.sink.ids (pageAt pages st.offset)).length := by
      cases hl : filterHighValueContracts st.sink.ids (pageAt pages st.offset) with
      | nil =>
        exfalso
        have hnil : (filterHighValueContracts st.sink.ids (pageAt pages st.offset)).filterMap judge = [] := by
          simp [hl]
        rw [hnil] at hf
        cases hf
      | cons a l => simp
    obtain ⟨_, _, _, _, happ⟩ := hfull hhv
    obtain ⟨_, hsink⟩ := happ hfl
    have hsucc := appendFlaggedContracts_success serialize
      ((filterHighValueContracts st.sink.ids (pageAt pages st.offset)).filterMap judge)
      st.sink (by intro hc; rw [hc] at hf; cases hf) Hser
    have hok : (mkCfg pages judge serialize).appendOk st.offset = true := rfl
    rw [hsink]
    show f.contract_id ∈ ((appendFlaggedContracts (mkCfg pages judge serialize).serialize
      ((mkCfg pages judge serialize).appendOk st.offset)
      ((filterHighValueContracts st.sink.ids (pageAt pages st.offset)).filterMap judge) st.sink).2).ids
    rw [hok]
    show f.contract_id ∈ ((appendFlaggedContracts serialize true
      ((filterHighValueContracts st.sink.ids (pageAt pages st.offset)).filterMap judge) st.sink).2).ids
    rw [hsucc]
    exact (mem_foldl_insertId _ _ _ _).mpr (Or.inr ⟨f, hf, rfl⟩)

/-- A batch whose classifier step returns no flagged results continues the
loop with an untouched sink. -/
theorem processBatch_quiet {cfg : AnalyzeCfg} {st : LoopState}
    {allContracts : List Contract}
    (hfl : cfg.classifyStep (filterHighValueContracts st.sink.ids allContracts) = []) :
    ∃ st', processBatch cfg st allContracts = .next st' ∧
      st'.sink = st.sink ∧ st'.offset = st.offset + BATCH_SIZE := by
  unfold processBatch
  by_cases hhv : 0 < (filterHighValueContracts st.sink.ids allContracts).length
  · rw [if_pos hhv]
    simp only [hfl, List.length_nil, lt_irrefl 0, if_false]
    exact ⟨_, rfl, rfl, rfl⟩
  · rw [if_neg hhv]
    exact ⟨_, rfl, rfl, rfl⟩

/-- Simulation for idempotent resume: a second traversal of the same
reliable source, started at the same offset with an identifier set that
already covers everything the first completed traversal ended with, never
changes its sink — provided the external classifier judges records
one-by-one and stamps each flagged result with its source record's
`procurement_id`. -/
theorem analyzeLoop_rerun_sink_eq {pages : List (List Contract)}
    {judge : Contract → Option FlaggedContract}
    {serialize : FlaggedContract → String}
    (Hid : ∀ c f, judge c = some f → f.contract_id = c.procurement_id)
    (Hser : ∀ f, serialize f ≠ "") :
    ∀ (fuel2 : Nat) (st2 : LoopState) (fuel1 : Nat) (st1 stEnd : LoopState),
      analyzeLoop (mkCfg pages judge serialize) fuel1 st1 = .done stEnd →
      st2.offset = st1.offset →
      (∀ x, x ∈ stEnd.sink.ids → x ∈ st2.sink.ids) →
      (resultState (analyzeLoop (mkCfg pages judge serialize) fuel2 st2)).sink = st2.sink := by
  intro fuel2
  induction fuel2 with
  | zero => intro st2 fuel1 st1 stEnd _ _ _; rfl
  | succ m ih =>
    intro st2 fuel1 st1 stEnd h1 hoff hsup
    cases fuel1 with
    | zero => cases h1
    | succ n =>
      unfold analyzeLoop at h1
      cases hstep1 : analyzeStep (mkCfg pages judge serialize) st1 with
      | fatal off stf => rw [hstep1] at h1; cases h1
      | finished st1f =>
        rw [hstep1] at h1
        cases h1
        have hempty : (pageAt pages st1.offset).isEmpty = true := by
          rw [analyzeStep_mkCfg] at hstep1
          by_cases he : (pageAt pages st1.offset).isEmpty
          · exact he
          · rw [if_neg he] at hstep1
            exact absurd hstep1 processBatch_not_finished
        have hstep2 : analyzeStep (mkCfg pages judge serialize) st2 = .finished st2 := by
          rw [analyzeStep_mkCfg, hoff, if_pos hempty]
        show (resultState (analyzeLoop (mkCfg pages judge serialize) (m + 1) st2)).sink = st2.sink
        unfold analyzeLoop
        rw [hstep2]
        rfl
      | next st1' =>
        rw [hstep1] at h1
        have hne : (pageAt pages st1.offset).isEmpty = false := by
          rw [analyzeStep_mkCfg] at hstep1
          by_cases he : (pageAt pages st1.offset).isEmpty
          · rw [if_pos he] at hstep1
            cases hstep1
          · exact Bool.not_eq_true _ ▸ he
        have hpb1 : processBatch (mkCfg pages judge serialize) st1 (pageAt pages st1.offset) =
            .next st1' := by
          rw [analyzeStep_mkCfg, if_neg (by rw [hne]; exact Bool.false_ne_true)] at hstep1
          exact hstep1
        -- the second traversal flags nothing in this batch
        have hquiet : (filterHighValueContracts st2.sink.ids (pageAt pages st1.offset)).filterMap
            judge = [] := by
          rw [List.filterMap_eq_nil_iff]
          intro c hc
          cases hj : judge c with
          | none => rfl
          | some f =>
            exfalso
            obtain ⟨hcpage, hcpass⟩ := (mem_filterHighValueContracts _ _ _).mp hc
            obtain ⟨hchigh, hcnew⟩ := (contractPasses_iff _ _).mp hcpass
            have hnotend : c.procurement_id ∉ stEnd.sink.ids := fun hmem => hcnew (hsup _ hmem)
            have hnot1 : c.procurement_id ∉ st1.sink.ids := by
              intro hmem
              exact hnotend (analyzeLoop_mono_ids h1 _ (analyzeStep_next_mono hstep1 _ hmem))
            have hc1 : c ∈ filterHighValueContracts st1.sink.ids (pageAt pages st1.offset) :=
              (mem_filterHighValueContracts _ _ _).mpr
                ⟨hcpage, (contractPasses_iff _ _).mpr ⟨hchigh, hnot1⟩⟩
            have hfmem : f ∈ (filterHighValueContracts st1.sink.ids
                (pageAt pages st1.offset)).filterMap judge :=
              List.mem_filterMap.mpr ⟨c, hc1, hj⟩
            have hidmem : f.contract_id ∈ st1'.sink.ids :=
              analyzeStep_mkCfg_flagged_ids Hser hstep1 f hfmem
            have : f.contract_id ∈ stEnd.sink.ids := analyzeLoop_mono_ids h1 _ hidmem
            rw [Hid c f hj] at this
            exact hnotend this
        obtain ⟨st2', hpb2, hsink2, hoff2⟩ := processBatch_quiet
          (show (mkCfg pages judge serialize).classifyStep
            (filterHighValueContracts st2.sink.ids (pageAt pages st2.offset)) = [] by
              show (filterHighValueContracts st2.sink.ids (pageAt pages st2.offset)).filterMap
                judge = []
              rw [hoff]
              exact hquiet)
        have hstep2 : analyzeStep (mkCfg pages judge serialize) st2 = .next st2' := by
          rw [analyzeStep_mkCfg, hoff, if_neg (by rw [hne]; exact Bool.false_ne_true)]
          rw [hoff] at hpb2
          exact hpb2
        show (resultState (analyzeLoop (mkCfg pages judge serialize) (m + 1) st2)).sink = st2.sink
        unfold analyzeLoop
        rw [hstep2]
        have hoff1' : st1'.offset = st1.offset + BATCH_SIZE := (processBatch_next hpb1).1
        have := ih st2' n st1' stEnd h1 (by rw [hoff2, hoff1', hoff]) (by
          intro x hx
          rw [hsink2]
          exact hsup x hx)
        rw [this, hsink2]

/-! ## Claim theorems -/

/-- C1: appending flagged results to the sink. A non-empty sequence is
serialized one record per line and appended to the durable log, and the
identifiers enter the processed set only when that append succeeded — a
failed append leaves both the log and the set untouched; an empty
sequence is a no-op that neither touches the file nor mutates the set. -/
theorem c1_result_sink_append (serialize : FlaggedContract → String)
    (contracts : List FlaggedContract) (st : SinkState)
    (hser : ∀ f, serialize f ≠ "") :
    (contracts = [] → ∀ appendOk,
       appendFlaggedContracts serialize appendOk contracts st = (true, st)) ∧
    (contracts ≠ [] →
       appendFlaggedContracts serialize true contracts st =
         (true, { log := st.log ++ contracts.map LogLine.good,
                  ids := contracts.foldl (fun ids c => insertId ids c.contract_id) st.ids })) ∧
    (appendFlaggedContracts serialize false contracts st).2 = st := by
  refine ⟨?_, ?_, ?_⟩
  · rintro rfl appendOk
    rfl
  · intro hne
    exact appendFlaggedContracts_success serialize contracts st hne hser
  · unfold appendFlaggedContracts
    by_cases hJ : joinLines (contracts.map serialize) = ""
    · rw [if_pos hJ]
    · rw [if_neg hJ]
      simp

/-- C1 witness: the theorem applied to a singleton list at a concrete
serializer and sink. -/
theorem c1_result_sink_append_witness :
    ([mkFlagged "w"] ≠ [] →
       appendFlaggedContracts (fun _ => "r") true [mkFlagged "w"] ⟨[], []⟩ =
         (true, { log := [] ++ [mkFlagged "w"].map LogLine.good,
                  ids := [mkFlagged "w"].foldl (fun ids c => insertId ids c.contract_id) [] })) ∧
    (appendFlaggedContracts (fun _ => "r") false [mkFlagged "w"] ⟨[], []⟩).2 = ⟨[], []⟩ :=
  ⟨(c1_result_sink_append (fun _ => "r") [mkFlagged "w"] ⟨[], []⟩
      (fun f => by show ("r" : String) ≠ ""; decide)).2.1,
   (c1_result_sink_append (fun _ => "r") [mkFlagged "w"] ⟨[], []⟩
      (fun f => by show ("r" : String) ≠ ""; decide)).2.2⟩

/-- C2: filter correctness. A record is selected iff its monetary value,
stripped of everything but digits, decimal point and minus and then
parsed, is at least `MIN_CONTRACT_VALUE` and its `procurement_id` is not
in the processed set; an unparsable (`NaN`) value is excluded without
crashing; `"$49,999.99"` is excluded and `"$50,000.00"` is included. -/
theorem c2_filter_correctness :
    (∀ (ids : List String) (contracts : List Contract) (c : Contract),
       c ∈ filterHighValueContracts ids contracts ↔
         c ∈ contracts ∧
         (∃ q, parseContractValue c.contract_value = some q ∧ MIN_CONTRACT_VALUE ≤ q) ∧
         c.procurement_id ∉ ids) ∧
    (∀ (ids : List String) (contracts : List Contract) (c : Contract),
       parseContractValue c.contract_value = none →
       c ∉ filterHighValueContracts ids contracts) ∧
    filterHighValueContracts [] [mkContract "P49" "$49,999.99"] = [] ∧
    filterHighValueContracts [] [mkContract "P50" "$50,000.00"] =
      [mkContract "P50" "$50,000.00"] := by
  refine ⟨?_, ?_, by decide, by decide⟩
  · intro ids contracts c
    rw [mem_filterHighValueContracts, contractPasses_iff, isHighValue_iff_parse]
  · intro ids contracts c hnan hmem
    obtain ⟨_, hpass⟩ := (mem_filterHighValueContracts _ _ _).mp hmem
    obtain ⟨hhigh, _⟩ := (contractPasses_iff _ _).mp hpass
    obtain ⟨q, hq, _⟩ := (isHighValue_iff_parse c).mp hhigh
    rw [hnan] at hq
    cases hq

/-- C2 witness: the NaN conjunct applied to a concrete unparsable value
(an empty post-strip string). -/
theorem c2_filter_correctness_witness :
    parseContractValue (mkContract "PX" "abc").contract_value = none ∧
    (mkContract "PX" "abc") ∉ filterHighValueContracts [] [mkContract "PX" "abc"] :=
  ⟨by decide, c2_filter_correctness.2.1 [] [mkContract "PX" "abc"] (mkContract "PX" "abc")
    (by decide)⟩

/-- C4: backoff schedule. A fetch whose attempts 0 and 1 fail and whose
attempt 2 succeeds makes exactly 3 attempts, sleeps
`1 × RATE_LIMIT_DELAY` before the first retry and `2 × RATE_LIMIT_DELAY`
before the second, and returns the page of the successful third
attempt. -/
theorem c4_backoff_schedule (fetch : Nat → Except Unit ApiResponse)
    (p : ApiResponse) (h0 : fetch 0 = .error ()) (h1 : fetch 1 = .error ())
    (h2 : fetch 2 = .ok p) :
    getContractsWithRetry fetch 0 =
      ⟨.ok p, [RATE_LIMIT_DELAY * 1, RATE_LIMIT_DELAY * 2], 3⟩ := by
  rw [getContractsWithRetry_err h0 (by decide), getContractsWithRetry_err h1 (by decide),
    getContractsWithRetry_ok h2]

/-- C4 witness: the schedule evaluated on a concrete flaky fetch. -/
theorem c4_backoff_schedule_witness :
    getContractsWithRetry
      (fun k => if k < 2 then .error () else .ok { success := true, result := { records := [], total := 0 } }) 0 =
      ⟨.ok { success := true, result := { records := [], total := 0 } },
       [RATE_LIMIT_DELAY * 1, RATE_LIMIT_DELAY * 2], 3⟩ :=
  c4_backoff_schedule _ _ rfl rfl rfl

/-- C7 counterexample: with the log
`[good "a", corrupt, good "b"]`, the identifier of the well-formed line
AFTER the corrupt line is not loaded — the corrupt line aborts the rest
of the load (the thrown parse error is caught outside the loop), so the
claim that every well-formed line, including those after the corrupt one,
is inserted is false. -/
theorem c7_counterexample :
    loadProcessedIds [.good (mkFlagged "a"), .corrupt, .good (mkFlagged "b")] [] = ["a"] ∧
    "b" ∉ loadProcessedIds [.good (mkFlagged "a"), .corrupt, .good (mkFlagged "b")] [] := by
  decide

/-- C7 amended: a corrupt line does not abort startup (the error is
swallowed), but the load stops there: exactly the identifiers of the
well-formed lines strictly before the first corrupt line are inserted;
lines after it are never reached. -/
theorem c7_load_stops_at_first_corrupt_line :
    (∀ (lines : List LogLine) (acc : List String),
       loadProcessedIds lines acc = (goodIdsBeforeCorrupt lines).foldl insertId acc) ∧
    (∀ (lines : List LogLine) (x : String),
       x ∈ loadProcessedIds lines [] ↔ x ∈ goodIdsBeforeCorrupt lines) := by
  refine ⟨loadProcessedIds_eq, ?_⟩
  intro lines x
  rw [loadProcessedIds_eq]
  have := mem_foldl_insertId (fun a => a) (goodIdsBeforeCorrupt lines) [] x
  simp only [List.not_mem_nil, false_or] at this
  rw [this]
  constructor
  · rintro ⟨a, ha, rfl⟩
    exact ha
  · intro hx
    exact ⟨x, hx, rfl⟩


/-- C5 counterexample: a run over a reliable source (the fetch oracle
never errors) whose durable append fails still terminates fatally — so an
exhausted-retries fetch failure is NOT the only fatal condition. -/
theorem c5_counterexample :
    (∀ off k, cfgAppendFails.fetchOutcome off k ≠ .error ()) ∧
    analyzeLoop cfgAppendFails 2 (initState 0 []) = .failed 0 (initState 0 []) := by
  constructor
  · intro off k h
    cases h
  · decide

/-- C5 amended: a fetch whose `MAX_RETRIES + 1` attempts all fail makes
the loop terminate with a `failed` result reporting exactly the offset of
the failed batch and the state as it was before the batch; and every
fatal termination comes from one batch whose fetch exhausted its retries
or whose durable append failed — those are the only fatal conditions. -/
theorem c5_fatal_fetch_failure :
    (∀ (cfg : AnalyzeCfg) (st : LoopState) (fuel : Nat),
       (∀ k, k ≤ MAX_RETRIES → cfg.fetchOutcome st.offset k = .error ()) →
       analyzeLoop cfg (fuel + 1) st = .failed st.offset st) ∧
    (∀ (cfg : AnalyzeCfg) (fuel : Nat) (st stErr : LoopState) (off : Nat),
       analyzeLoop cfg fuel st = .failed off stErr →
       ∃ stb, analyzeStep cfg stb = .fatal off stErr ∧ off = stb.offset ∧ stErr = stb ∧
         ((getContractsWithRetry (cfg.fetchOutcome stb.offset) 0).result = .error () ∨
          cfg.appendOk stb.offset = false)) := by
  constructor
  · intro cfg st fuel hfail
    have hres := getContractsWithRetry_all_fail hfail
    have hstep := analyzeStep_error hres
    rw [show fuel + 1 = fuel + 1 from rfl]
    unfold analyzeLoop
    rw [hstep]
  · intro cfg fuel st stErr off h
    obtain ⟨stb, hstep⟩ := analyzeLoop_failed_source h
    obtain ⟨hoff, hst, hcause⟩ := analyzeStep_fatal hstep
    exact ⟨stb, hstep, hoff, hst, hcause⟩

/-- C5 witness: the amended theorem applied to a concrete always-failing
fetch from offset 0 with empty state. -/
theorem c5_fatal_fetch_failure_witness :
    analyzeLoop
      { fetchOutcome := fun _ _ => .error (), classifyStep := fun _ => [],
        serialize := fun _ => "r", appendOk := fun _ => true }
      1 (initState 0 []) = .failed 0 (initState 0 []) :=
  c5_fatal_fetch_failure.1
    { fetchOutcome := fun _ _ => .error (), classifyStep := fun _ => [],
      serialize := fun _ => "r", appendOk := fun _ => true }
    (initState 0 []) 0 (fun _ _ => rfl)

/-- C6: degraded classifier failure. A classifier call all of whose
attempts throw or return malformed content returns the empty list instead
of raising; in the orchestrator, a batch whose classifier step came back
empty still continues the run with the offset advanced by `BATCH_SIZE`
and nothing appended to the durable log or the identifier set. -/
theorem c6_classifier_failure_nonfatal :
    (∀ (contracts : List Contract) (outcome : Nat → GptOutcome),
       (∀ k, k ≤ MAX_RETRIES → outcome k = .apiError ∨ outcome k = .badJson) →
       analyzeContractsWithGPT contracts outcome 0 = []) ∧
    (∀ (cfg : AnalyzeCfg) (st : LoopState) (outcome : Nat → GptOutcome)
       (data : ApiResponse),
       cfg.classifyStep = (fun candidates => analyzeContractsWithGPT candidates outcome 0) →
       (∀ k, k ≤ MAX_RETRIES → outcome k = .apiError ∨ outcome k = .badJson) →
       (getContractsWithRetry (cfg.fetchOutcome st.offset) 0).result = .ok data →
       data.success = true →
       data.result.records ≠ [] →
       ∃ st', analyzeStep cfg st = .next st' ∧
         st'.offset = st.offset + BATCH_SIZE ∧ st'.sink = st.sink) := by
  refine ⟨fun contracts outcome h => analyzeContractsWithGPT_all_fail h, ?_⟩
  intro cfg st outcome data hcs hfail hfetch hsucc hne
  have hflag : cfg.classifyStep (filterHighValueContracts st.sink.ids data.result.records) = [] := by
    rw [hcs]
    exact analyzeContractsWithGPT_all_fail hfail
  obtain ⟨st', hpb, hsink, hoffs⟩ := processBatch_quiet hflag
  refine ⟨st', ?_, hoffs, hsink⟩
  rw [analyzeStep_ok hfetch, if_neg (by simp [hsucc, hne])]
  exact hpb

/-- C6 witness: the orchestrator conjunct applied to a concrete
always-throwing classifier over a one-record page. -/
theorem c6_classifier_failure_nonfatal_witness :
    ∃ st', analyzeStep
      { fetchOutcome := fun _ _ =>
          .ok { success := true, result := { records := [mkContract "A" "60000"], total := 0 } },
        classifyStep := fun candidates =>
          analyzeContractsWithGPT candidates (fun _ => .apiError) 0,
        serialize := fun _ => "r", appendOk := fun _ => true }
      (initState 0 []) = .next st' ∧
      st'.offset = (initState 0 []).offset + BATCH_SIZE ∧
      st'.sink = (initState 0 []).sink :=
  c6_classifier_failure_nonfatal.2
    { fetchOutcome := fun _ _ =>
        .ok { success := true, result := { records := [mkContract "A" "60000"], total := 0 } },
      classifyStep := fun candidates =>
        analyzeContractsWithGPT candidates (fun _ => .apiError) 0,
      serialize := fun _ => "r", appendOk := fun _ => true }
    (initState 0 []) (fun _ => .apiError)
    { success := true, result := { records := [mkContract "A" "60000"], total := 0 } }
    rfl (fun k _ => Or.inl rfl) (by rw [getContractsWithRetry_ok rfl]) rfl (by decide)


/-- C8 counterexample: a fetched batch with one record and zero filter
candidates advances the offset but does NOT accumulate the running
counters (`totalContracts` stays 0 although one record was fetched),
because the source only updates the counters inside the
`highValueContracts.length > 0` branch. -/
theorem c8_counterexample :
    (pageAt [[mkContract "A" "10"]] 0).length = 1 ∧
    analyzeStep cfgLowValuePage (initState 0 []) =
      .next { offset := BATCH_SIZE,
              totals := { totalContracts := 0, totalHighValue := 0,
                          totalFlagged := 0, batchNumber := 2 },
              sink := { log := [], ids := [] } } := by
  decide

/-- C8 amended: every continuing iteration advances the offset by exactly
`BATCH_SIZE` and the batch number by one; the running counters are
accumulated only when the batch has at least one candidate (a
zero-candidate batch leaves them, and the sink, untouched); and with zero
candidates the batch body never consults the classifier step. -/
theorem c8_offset_and_counters :
    (∀ (cfg : AnalyzeCfg) (st st' : LoopState), analyzeStep cfg st = .next st' →
       st'.offset = st.offset + BATCH_SIZE ∧
       st'.totals.batchNumber = st.totals.batchNumber + 1) ∧
    (∀ (cfg : AnalyzeCfg) (st : LoopState) (allContracts : List Contract) (st' : LoopState),
       processBatch cfg st allContracts = .next st' →
       (filterHighValueContracts st.sink.ids allContracts = [] →
          st'.sink = st.sink ∧
          st'.totals = { st.totals with batchNumber := st.totals.batchNumber + 1 }) ∧
       (filterHighValueContracts st.sink.ids allContracts ≠ [] →
          st'.totals.totalContracts = st.totals.totalContracts + allContracts.length ∧
          st'.totals.totalHighValue = st.totals.totalHighValue +
            (filterHighValueContracts st.sink.ids allContracts).length ∧
          st'.totals.totalFlagged = st.totals.totalFlagged +
            (cfg.classifyStep (filterHighValueContracts st.sink.ids allContracts)).length)) ∧
    (∀ (cfg : AnalyzeCfg) (g : List Contract → List FlaggedContract)
       (st : LoopState) (allContracts : List Contract),
       filterHighValueContracts st.sink.ids allContracts = [] →
       processBatch { cfg with classifyStep := g } st allContracts =
         processBatch cfg st allContracts) := by
  refine ⟨?_, ?_, ?_⟩
  · intro cfg st st' h
    obtain ⟨data, _, _, _, hpb⟩ := analyzeStep_next h
    obtain ⟨h1, h2, _, _⟩ := processBatch_next hpb
    exact ⟨h1, h2⟩
  · intro cfg st allContracts st' h
    obtain ⟨_, _, hempty, hfull⟩ := processBatch_next h
    constructor
    · intro hnil
      exact hempty (by rw [hnil]; simp)
    · intro hne
      have hpos : 0 < (filterHighValueContracts st.sink.ids allContracts).length := by
        cases hl : filterHighValueContracts st.sink.ids allContracts with
        | nil => exact absurd hl hne
        | cons a l => simp
      obtain ⟨ha, hb, hc, _, _⟩ := hfull hpos
      exact ⟨ha, hb, hc⟩
  · intro cfg g st allContracts h
    unfold processBatch
    rw [h]
    rfl

/-- C8 witness: the first conjunct applied to the concrete low-value
one-page source at offset 0. -/
theorem c8_offset_and_counters_witness :
    (analyzeStep cfgLowValuePage (initState 0 []) =
      .next { offset := BATCH_SIZE,
              totals := { totalContracts := 0, totalHighValue := 0,
                          totalFlagged := 0, batchNumber := 2 },
              sink := { log := [], ids := [] } }) ∧
    ({ offset := BATCH_SIZE,
       totals := { totalContracts := 0, totalHighValue := 0,
                   totalFlagged := 0, batchNumber := 2 },
       sink := { log := [], ids := [] } } : LoopState).offset =
      (initState 0 []).offset + BATCH_SIZE :=
  ⟨by decide,
   (c8_offset_and_counters.1 cfgLowValuePage (initState 0 []) _ (by decide)).1⟩

theorem analyzeContractsWithGPTGo_noContent {contracts : List Contract}
    {outcome : Nat → GptOutcome} {r : Nat} (h : outcome r = .noContent) (rem : Nat) :
    analyzeContractsWithGPTGo contracts outcome r rem = [] := by
  unfold analyzeContractsWithGPTGo
  rw [h]

theorem analyzeContractsWithGPTGo_good {contracts : List Contract}
    {outcome : Nat → GptOutcome} {r : Nat} {l : List FlaggedContract}
    (h : outcome r = .good l) (rem : Nat) :
    analyzeContractsWithGPTGo contracts outcome r rem = l := by
  unfold analyzeContractsWithGPTGo
  rw [h]

/-- The classifier step either returns `[]` or echoes verbatim the list
contained in the first successful, parseable response. -/
theorem analyzeContractsWithGPTGo_characterisation (contracts : List Contract)
    (outcome : Nat → GptOutcome) :
    ∀ (rem retries : Nat),
      analyzeContractsWithGPTGo contracts outcome retries rem = [] ∨
      ∃ k, retries ≤ k ∧ k ≤ retries + rem ∧
        outcome k = .good (analyzeContractsWithGPTGo contracts outcome retries rem) := by
  intro rem
  induction rem with
  | zero =>
    intro retries
    cases ho : outcome retries with
    | noContent => exact Or.inl (analyzeContractsWithGPTGo_noContent ho 0)
    | good l =>
      refine Or.inr ⟨retries, le_refl _, by omega, ?_⟩
      rw [analyzeContractsWithGPTGo_good ho 0, ho]
    | apiError => exact Or.inl (analyzeContractsWithGPTGo_fail_zero (Or.inl ho))
    | badJson => exact Or.inl (analyzeContractsWithGPTGo_fail_zero (Or.inr ho))
  | succ rem ih =>
    intro retries
    cases ho : outcome retries with
    | noContent => exact Or.inl (analyzeContractsWithGPTGo_noContent ho (rem + 1))
    | good l =>
      refine Or.inr ⟨retries, le_refl _, by omega, ?_⟩
      rw [analyzeContractsWithGPTGo_good ho (rem + 1), ho]
    | apiError =>
      rw [analyzeContractsWithGPTGo_fail (Or.inl ho) rem]
      rcases ih (retries + 1) with h | ⟨k, hk1, hk2, hk3⟩
      · exact Or.inl h
      · exact Or.inr ⟨k, by omega, by omega, hk3⟩
    | badJson =>
      rw [analyzeContractsWithGPTGo_fail (Or.inr ho) rem]
      rcases ih (retries + 1) with h | ⟨k, hk1, hk2, hk3⟩
      · exact Or.inl h
      · exact Or.inr ⟨k, by omega, by omega, hk3⟩

/-- C9 counterexample: the classify operation happily returns more
flagged results than candidates submitted — nothing in the code validates
or truncates the external response against the candidate count. -/
theorem c9_counterexample :
    ([mkContract "A" "60000"] : List Contract).length <
      (analyzeContractsWithGPT [mkContract "A" "60000"]
        (fun _ => .good [mkFlagged "X", mkFlagged "Y"]) 0).length := by
  decide

/-- C9 amended: the classify operation returns either the empty sequence
or exactly the list contained in the first successful, parseable response
of the external classifier (found within `MAX_RETRIES` retries); its
length is therefore bounded by the number of candidates exactly when the
external responses respect that bound — the code itself does not enforce
it. -/
theorem c9_classifier_output_characterisation (contracts : List Contract)
    (outcome : Nat → GptOutcome) :
    (analyzeContractsWithGPT contracts outcome 0 = [] ∨
     ∃ k, k ≤ MAX_RETRIES ∧
       outcome k = .good (analyzeContractsWithGPT contracts outcome 0)) ∧
    ((∀ k l, outcome k = .good l → l.length ≤ contracts.length) →
       (analyzeContractsWithGPT contracts outcome 0).length ≤ contracts.length) := by
  have hchar := analyzeContractsWithGPTGo_characterisation contracts outcome (MAX_RETRIES - 0) 0
  have heq : analyzeContractsWithGPT contracts outcome 0 =
      analyzeContractsWithGPTGo contracts outcome 0 (MAX_RETRIES - 0) := rfl
  constructor
  · rcases hchar with h | ⟨k, _, hk2, hk3⟩
    · exact Or.inl (by rw [heq]; exact h)
    · refine Or.inr ⟨k, by omega, ?_⟩
      rw [heq]
      exact hk3
  · intro hbound
    rcases hchar with h | ⟨k, _, _, hk3⟩
    · rw [heq, h]
      simp
    · rw [heq]
      exact hbound k _ hk3

/-- C9 witness: the bound conjunct applied to an external classifier that
always answers with a singleton list over a singleton candidate list. -/
theorem c9_classifier_output_characterisation_witness :
    (analyzeContractsWithGPT [mkContract "W" "1"]
      (fun _ => .good [mkFlagged "W"]) 0).length ≤
      ([mkContract "W" "1"] : List Contract).length :=
  (c9_classifier_output_characterisation [mkContract "W" "1"]
    (fun _ => .good [mkFlagged "W"])).2
    (fun k l h => by
      injection h with h2
      rw [← h2]
      decide)

/-- After a successful append of one flagged result, the identifier set
gains exactly the result's `contract_id`. -/
theorem append_singleton_ids (serialize : FlaggedContract → String)
    (st : SinkState) (f : FlaggedContract) (hser : serialize f ≠ "") :
    ((appendFlaggedContracts serialize true [f] st).2).ids =
      insertId st.ids f.contract_id := by
  unfold appendFlaggedContracts
  rw [if_neg (show ¬ joinLines ([f].map serialize) = "" from by
    simpa [joinLines] using hser)]
  rfl

/-- C10: the two sides of the deduplication use different fields. The
filter tests membership of the source record's `procurement_id`; the set
is populated — at load and after a successful append — from the flagged
result's `contract_id`; persisting a flagged result therefore excludes
its source record from future selection when the external classifier set
`contract_id` to the record's `procurement_id`, and fails to exclude it
when it did not — the code never checks or enforces that equality. -/
theorem c10_dedup_key_mismatch :
    (∀ (ids : List String) (c : Contract),
       contractPasses ids c = (isHighValue c && !(idsContains ids c.procurement_id))) ∧
    (∀ (f : FlaggedContract) (rest : List LogLine) (acc : List String),
       loadProcessedIds (.good f :: rest) acc =
         loadProcessedIds rest (insertId acc f.contract_id)) ∧
    (∀ (serialize : FlaggedContract → String) (st : SinkState) (f : FlaggedContract),
       serialize f ≠ "" →
       ((appendFlaggedContracts serialize true [f] st).2).ids =
         insertId st.ids f.contract_id) ∧
    (∀ (serialize : FlaggedContract → String) (st : SinkState)
       (c : Contract) (f : FlaggedContract),
       serialize f ≠ "" → f.contract_id = c.procurement_id →
       filterHighValueContracts ((appendFlaggedContracts serialize true [f] st).2).ids [c] = []) ∧
    (∃ (c : Contract) (f : FlaggedContract),
       f.contract_id ≠ c.procurement_id ∧
       contractPasses [] c = true ∧
       filterHighValueContracts
         ((appendFlaggedContracts (fun _ => "r") true [f] ⟨[], []⟩).2).ids [c] = [c]) := by
  refine ⟨fun ids c => rfl, fun f rest acc => rfl, append_singleton_ids, ?_, ?_⟩
  · intro serialize st c f hser hid
    rw [append_singleton_ids serialize st f hser]
    have hpass : contractPasses (insertId st.ids f.contract_id) c = false := by
      unfold contractPasses
      have hmem : idsContains (insertId st.ids f.contract_id) c.procurement_id = true := by
        rw [idsContains_iff, ← hid]
        exact (mem_insertId _ _ _).mpr (Or.inr rfl)
      rw [hmem]
      simp
    unfold filterHighValueContracts
    simp [List.filter, hpass]
  · exact ⟨mkContract "A" "60000", mkFlagged "B", by decide, by decide, by decide⟩

/-- C10 witness: the positive exclusion conjunct applied to a matching
pair (`contract_id = procurement_id = "A"`). -/
theorem c10_dedup_key_mismatch_witness :
    filterHighValueContracts
      ((appendFlaggedContracts (fun _ => "r") true [mkFlagged "A"] ⟨[], []⟩).2).ids
      [mkContract "A" "60000"] = [] :=
  c10_dedup_key_mismatch.2.2.2.1 (fun _ => "r") ⟨[], []⟩ (mkContract "A" "60000")
    (mkFlagged "A") (by decide) rfl


/-- C3 counterexample: both runs over a one-page source end cleanly, but
because the external classifier stamped the flagged result with an
identifier (`"B"`) different from the source record's `procurement_id`
(`"A"`), the second run from offset 0 re-selects, re-flags and re-appends
the same record: the log grows from 1 line to 2 — not zero additional
flagged results. -/
theorem c3_counterexample :
    isDone (analyze cfgMismatchedIds 2 0 []) = true ∧
    isDone (analyze cfgMismatchedIds 2 0 (resultLog (analyze cfgMismatchedIds 2 0 []))) = true ∧
    (resultLog (analyze cfgMismatchedIds 2 0 [])).length = 1 ∧
    (resultLog (analyze cfgMismatchedIds 2 0
      (resultLog (analyze cfgMismatchedIds 2 0 [])))).length = 2 := by
  decide

/-- C3 amended: for any finite reliable paginated source, if the external
classifier judges each candidate independently and stamps every flagged
result's `contract_id` with the candidate's `procurement_id`, then after
one clean end-to-end run a second run from offset 0 appends zero
additional flagged results — the durable log is unchanged. -/
theorem c3_idempotent_resume (pages : List (List Contract))
    (judge : Contract → Option FlaggedContract)
    (serialize : FlaggedContract → String) (fuel1 fuel2 : Nat) (stEnd : LoopState)
    (Hid : ∀ c f, judge c = some f → f.contract_id = c.procurement_id)
    (Hser : ∀ f, serialize f ≠ "")
    (h1 : analyze (mkCfg pages judge serialize) fuel1 0 [] = .done stEnd) :
    resultLog (analyze (mkCfg pages judge serialize) fuel2 0 stEnd.sink.log) =
      stEnd.sink.log := by
  have h1' : analyzeLoop (mkCfg pages judge serialize) fuel1 (initState 0 []) = .done stEnd := h1
  have hcoh0 : SinkCoherent (initState 0 []).sink := by
    intro x
    constructor
    · intro hx
      cases hx
    · intro hx
      cases hx
  have hcohEnd := analyzeLoop_done_coherent h1' hcoh0
  have hgood : LogAllGood stEnd.sink.log :=
    analyzeLoop_done_allgood h1' (by intro l hl; cases hl)
  have hsup : ∀ x, x ∈ stEnd.sink.ids → x ∈ (initState 0 stEnd.sink.log).sink.ids := by
    intro x hx
    have hgoodx : x ∈ idsOfGoodLines stEnd.sink.log := (hcohEnd x).mp hx
    show x ∈ loadProcessedIds stEnd.sink.log []
    rw [mem_loadProcessedIds_allgood _ hgood]
    exact Or.inr hgoodx
  have hsim := analyzeLoop_rerun_sink_eq Hid Hser fuel2 (initState 0 stEnd.sink.log)
    fuel1 (initState 0 []) stEnd h1' rfl hsup
  show (resultState (analyzeLoop (mkCfg pages judge serialize) fuel2
    (initState 0 stEnd.sink.log))).sink.log = stEnd.sink.log
  rw [hsim]
  rfl

/-- C3 witness: the amended theorem applied to a concrete one-page
high-value source with a faithful external judgment. -/
theorem c3_idempotent_resume_witness :
    resultLog (analyze cfgFaithfulJudge 2 0
      (resultState (analyze cfgFaithfulJudge 2 0 [])).sink.log) =
      (resultState (analyze cfgFaithfulJudge 2 0 [])).sink.log :=
  c3_idempotent_resume [[mkContract "A" "60000"]]
    (fun c => some (mkFlagged c.procurement_id)) (fun _ => "r") 2 2
    (resultState (analyze cfgFaithfulJudge 2 0 []))
    (fun c f h => by injection h with h2; rw [← h2]; rfl)
    (fun f => by show ("r" : String) ≠ ""; decide)
    (by decide)


end Snowdoge
